import Mathlib

/-!
Verification of the crush shell's execution engine against its design
specification.  The Rust sources are embedded shallowly: the mutable,
`Arc<Mutex<_>>`-shared scope graph of `src/lang/scope.rs` becomes an explicit
store (`ScopeId → ScopeData`) threaded through every operation, recursion
through the graph takes an explicit fuel bound (the Rust code would diverge on
the cyclic graphs the fuel cuts off), fallible operations return the result
together with the (possibly updated) store, and printer effects become lists of
emitted events.
-/

namespace Crush

/-- Modelled from the spec: the value model (`src/lang/value.rs` is not part of
the provided sources).  A representative subset of the tagged union of value
kinds listed in the spec, sufficient for the scope operations: `Text`,
`Integer`, `Bool`, `Scope` (a handle, here a store index) and `Empty`. -/
inductive Value where
  | text (s : String)
  | integer (i : Int)
  | bool (b : Bool)
  | scope (id : Nat)
  | empty
deriving DecidableEq

/-- Modelled from the spec: value types mirror the value variants and equality
of scalar types is nominal. -/
inductive ValueType where
  | text
  | integer
  | bool
  | scope
  | empty
deriving DecidableEq

/-- Modelled from the spec: every value carries its semantic type. -/
def Value.value_type : Value → ValueType
  | .text _ => .text
  | .integer _ => .integer
  | .bool _ => .bool
  | .scope _ => .scope
  | .empty => .empty

/-- `CellDataType` from `src/src/result.rs`: the scalar cell types. -/
inductive CellDataType where
  | Text
  | Integer
  | Time
deriving DecidableEq

/-- The hand-written `impl PartialEq for CellDataType` in `src/src/result.rs`,
transcribed arm for arm: `(Text, Text)` and `(Integer, Integer)` yield `true`,
everything else falls through to `false`. -/
def cellDataTypeEq : CellDataType → CellDataType → Bool
  | .Text, .Text => true
  | .Integer, .Integer => true
  | _, _ => false

/-- Result type of fallible scope operations (`CrushResult` in the source);
errors are represented by their message. -/
abbrev CrushResult (α : Type) := Except String α

/-- A scope handle (`Scope` in the source is an `Arc<Mutex<ScopeData>>`; here a
handle is an index into the store). -/
abbrev ScopeId := Nat

/-- `ScopeData` from `src/src/lang/scope.rs`, field for field. -/
structure ScopeData where
  parent_scope : Option ScopeId
  calling_scope : Option ScopeId
  uses : List ScopeId
  mapping : List (String × Value)
  is_loop : Bool
  is_stopped : Bool
  is_readonly : Bool

/-- The heap of scope nodes: every handle points at some data. -/
abbrev Store := ScopeId → ScopeData

/-- Writing one scope's data back into the store (a mutation through the
handle's mutex in the source). -/
def Store.update (st : Store) (id : ScopeId) (d : ScopeData) : Store :=
  fun j => if j = id then d else st j

/-- `ScopeData::new` from `src/src/lang/scope.rs`. -/
def ScopeData.new (parent_scope calling_scope : Option ScopeId) (is_loop : Bool) : ScopeData :=
  { parent_scope := parent_scope
    calling_scope := calling_scope
    uses := []
    mapping := []
    is_loop := is_loop
    is_stopped := false
    is_readonly := false }

/-- The store of a fresh program: every handle denotes the data that
`Scope::new` allocates (`ScopeData::new(None, None, false)`). -/
def freshStore : Store := fun _ => ScopeData.new none none false

/-- Lookup in the scope's `HashMap` mapping, modelled as an association list
(key uniqueness is maintained by `ainsert`). -/
def alookup : List (String × Value) → String → Option Value
  | [], _ => none
  | (k, v) :: t, n => if k = n then some v else alookup t n

/-- `HashMap::insert`: binds the key, replacing any previous binding. -/
def ainsert (m : List (String × Value)) (n : String) (v : Value) : List (String × Value) :=
  (n, v) :: m.filter (fun p => p.1 ≠ n)

/-- `HashMap::remove`: drops the key's binding. -/
def aerase (m : List (String × Value)) (n : String) : List (String × Value) :=
  m.filter (fun p => p.1 ≠ n)

/-- `Scope::get` from `src/src/lang/scope.rs`: local mapping first; on a miss
the whole lookup is delegated to the parent when there is one; only a scope
with no parent scans its `uses` list in order.  The fuel bounds the recursion
through the scope graph. -/
def get : Nat → Store → ScopeId → String → Option Value
  | 0, _, _, _ => none
  | fuel + 1, st, id, name =>
    match alookup (st id).mapping name with
    | some v => some v
    | none =>
      match (st id).parent_scope with
      | some p => get fuel st p name
      | none => (st id).uses.findSome? (fun u => get fuel st u name)

/-- `Scope::declare` from `src/src/lang/scope.rs`: empty paths are refused; a
single segment binds in this scope (read-only scopes and already-bound names
are refused); a longer path resolves its head with `get` and recurses into the
scope value found there. -/
def declare (fuel : Nat) (st : Store) (id : ScopeId) : List String → Value → CrushResult Unit × Store
  | [], _ => (.error ("Empty variable name"), st)
  | [n], value =>
    if (st id).is_readonly then (.error ("Scope is read only"), st)
    else if (alookup (st id).mapping n).isSome then
      (.error ("Variable $\x7b" ++ n ++ "\x7d already exists"), st)
    else (.ok (), st.update id { st id with mapping := ainsert (st id).mapping n value })
  | n :: rest, value =>
    match get fuel st id n with
    | none => (.error ("Not a namespace"), st)
    | some (.scope e) => declare fuel st e rest value
    | some _ => (.error ("Unknown namespace"), st)

/-- The message of `Scope::set_on_data` when no scope on the parent chain binds
the name. -/
def unknownVariableMessage (name : String) : String :=
  "Unknown variable $\x7b" ++ name ++ "\x7d"

/-- The message of `Scope::set_on_data` on a type mismatch; it suggests
removing the old variable first. -/
def typeMismatchMessage (name : String) : String :=
  "Type mismatch when reassigning variable $\x7b" ++ name ++
    "\x7d. Use `unset $\x7b" ++ name ++ "\x7d` to remove old variable."

/-- `Scope::set_on_data` from `src/src/lang/scope.rs`: walk the parent chain
to the first scope whose mapping binds the name; there, refuse a read-only
scope, refuse a change of value type, and otherwise re-bind. -/
def set_on_data : Nat → Store → ScopeId → String → Value → CrushResult Unit × Store
  | 0, st, _, _, _ => (.error ("Recursion limit"), st)
  | fuel + 1, st, id, name, value =>
    match alookup (st id).mapping name with
    | none =>
      match (st id).parent_scope with
      | some p => set_on_data fuel st p name value
      | none => (.error (unknownVariableMessage name), st)
    | some old =>
      if (st id).is_readonly then (.error ("Scope is read only"), st)
      else if old.value_type ≠ value.value_type then (.error (typeMismatchMessage name), st)
      else (.ok (), st.update id { st id with mapping := ainsert (st id).mapping name value })

/-- `Scope::set` from `src/src/lang/scope.rs`: empty paths are refused; a
single segment delegates to `set_on_data`; a longer path resolves its head with
`get` and recurses into the scope value found there. -/
def set (fuel : Nat) (st : Store) (id : ScopeId) : List String → Value → CrushResult Unit × Store
  | [], _ => (.error ("Empty variable name"), st)
  | [n], value => set_on_data fuel st id n value
  | n :: rest, value =>
    match get fuel st id n with
    | none => (.error ("Not a namespace"), st)
    | some (.scope e) => set fuel st e rest value
    | some _ => (.error ("Unknown namespace"), st)

/-- `Scope::remove_here` from `src/src/lang/scope.rs`: walk the parent chain to
the first scope binding the key; a read-only owner yields `None`, otherwise the
binding is removed and returned. -/
def remove_here : Nat → Store → ScopeId → String → Option Value × Store
  | 0, st, _, _ => (none, st)
  | fuel + 1, st, id, key =>
    match alookup (st id).mapping key with
    | none =>
      match (st id).parent_scope with
      | some p => remove_here fuel st p key
      | none => (none, st)
    | some v =>
      if (st id).is_readonly then (none, st)
      else (some v, st.update id { st id with mapping := aerase (st id).mapping key })

/-- `Scope::remove` from `src/src/lang/scope.rs`: an empty path yields `None`;
a single segment delegates to `remove_here`; a longer path resolves its head
with `get` and recurses into the scope value found there. -/
def remove (fuel : Nat) (st : Store) (id : ScopeId) : List String → Option Value × Store
  | [] => (none, st)
  | [n] => remove_here fuel st id n
  | n :: rest =>
    match get fuel st id n with
    | none => (none, st)
    | some (.scope e) => remove fuel st e rest
    | some _ => (none, st)

/-- `Scope::do_continue` from `src/src/lang/scope.rs`: a read-only scope
refuses; a loop scope answers `true` WITHOUT touching its own flags; any other
scope asks its calling scope and, on success, marks itself stopped. -/
def do_continue : Nat → Store → ScopeId → Bool × Store
  | 0, st, _ => (false, st)
  | fuel + 1, st, id =>
    if (st id).is_readonly then (false, st)
    else if (st id).is_loop then (true, st)
    else
      match (st id).calling_scope with
      | none => (false, st)
      | some c =>
        match do_continue fuel st c with
        | (true, st2) => (true, st2.update id { st2 id with is_stopped := true })
        | (false, st2) => (false, st2)

/-- `Scope::do_break` from `src/src/lang/scope.rs`: like `do_continue`, except
that the loop scope that honors the request marks itself stopped as well. -/
def do_break : Nat → Store → ScopeId → Bool × Store
  | 0, st, _ => (false, st)
  | fuel + 1, st, id =>
    if (st id).is_readonly then (false, st)
    else if (st id).is_loop then (true, st.update id { st id with is_stopped := true })
    else
      match (st id).calling_scope with
      | none => (false, st)
      | some c =>
        match do_break fuel st c with
        | (true, st2) => (true, st2.update id { st2 id with is_stopped := true })
        | (false, st2) => (false, st2)

/-- Modelled from the spec (amended): whether the walk of the calling chain
reaches a scope with `is_loop = true` before hitting a read-only scope or the
end of the chain. -/
def specFindLoop : Nat → Store → ScopeId → Bool
  | 0, _, _ => false
  | fuel + 1, st, id =>
    if (st id).is_readonly then false
    else if (st id).is_loop then true
    else
      match (st id).calling_scope with
      | none => false
      | some c => specFindLoop fuel st c

/-- Modelled from the spec (amended): the loop scope that the walk of the
calling chain reaches, when it reaches one. -/
def specLoopTarget : Nat → Store → ScopeId → Option ScopeId
  | 0, _, _ => none
  | fuel + 1, st, id =>
    if (st id).is_readonly then none
    else if (st id).is_loop then some id
    else
      match (st id).calling_scope with
      | none => none
      | some c => specLoopTarget fuel st c

/-- The scopes examined by `do_break` / `do_continue`, in order: the walk of
the calling chain up to and including the scope at which it stops. -/
def visited : Nat → Store → ScopeId → List ScopeId
  | 0, _, _ => []
  | fuel + 1, st, id =>
    if (st id).is_readonly then [id]
    else if (st id).is_loop then [id]
    else
      id :: (match (st id).calling_scope with
             | none => []
             | some c => visited fuel st c)

/-- The parent chain starting at a scope, when it reaches a parentless scope
within the fuel bound. -/
def chainList : Nat → Store → ScopeId → Option (List ScopeId)
  | 0, _, _ => none
  | fuel + 1, st, id =>
    match (st id).parent_scope with
    | none => some [id]
    | some p => (chainList fuel st p).map (fun l => id :: l)

/-- Modelled from the spec: the nearest scope on the parent chain whose local
mapping binds the name — the scope whose binding `set` updates. -/
def owner : Nat → Store → ScopeId → String → Option ScopeId
  | 0, _, _, _ => none
  | fuel + 1, st, id, name =>
    if (alookup (st id).mapping name).isSome then some id
    else
      match (st id).parent_scope with
      | some p => owner fuel st p name
      | none => none

/-- The outcome of one worker thread, as `JobJoinHandle::join` in
`src/src/commands/mod.rs` observes it: `thread::JoinHandle::join` yields `Err`
on a panic and otherwise the worker's own `JobResult`. -/
inductive WorkerResult where
  | ok
  | err (e : String)
  | panicked
deriving DecidableEq

/-- `JobJoinHandle` from `src/src/commands/mod.rs`: a leaf holds one worker, a
`Many` node holds the handles of a composite job. -/
inductive JobJoinHandle where
  | async (r : WorkerResult)
  | many (v : List JobJoinHandle)

/-- A call on the printer, the shallow embedding of the printer effect of
`JobJoinHandle::join`. -/
inductive PrinterEvent where
  | job_error (e : String)
  | printed (m : String)
deriving DecidableEq

mutual

/-- `JobJoinHandle::join` from `src/src/commands/mod.rs`, with the printer
effect reified as the list of printer calls in order: a successful worker
prints nothing, a worker error goes to `printer.job_error`, a panic to
`printer.error` with a generic message, and a `Many` node joins every child in
order. -/
def join : JobJoinHandle → List PrinterEvent
  | .async .ok => []
  | .async (.err e) => [.job_error e]
  | .async .panicked => [.printed ("Unknown error while waiting for command to exit")]
  | .many v => joinList v

/-- The loop over the children of a `Many` node inside `JobJoinHandle::join`. -/
def joinList : List JobJoinHandle → List PrinterEvent
  | [] => []
  | h :: t => join h ++ joinList t

end

mutual

/-- The workers at the leaves of a join-handle tree, in join order. -/
def leaves : JobJoinHandle → List WorkerResult
  | .async r => [r]
  | .many v => leavesList v

/-- The workers at the leaves of a list of join-handle trees. -/
def leavesList : List JobJoinHandle → List WorkerResult
  | [] => []
  | h :: t => leaves h ++ leavesList t

end

/-- The one report `JobJoinHandle::join` emits for a failing worker, and the
absence of a report for a successful one. -/
def reportOf : WorkerResult → Option PrinterEvent
  | .ok => none
  | .err e => some (.job_error e)
  | .panicked => some (.printed ("Unknown error while waiting for command to exit"))

/-- `ArgumentDefinition` from the command layer, with the value expression kept
abstract (its type is the parameter `V`; `src/lang/argument.rs` is not among
the provided sources). -/
structure ArgumentDefinition (V : Type) where
  value : V

/-- `ConditionCommand` from `src/src/lang/command/mod.rs`; the callable and the
argument descriptions are kept abstract (`F` and `D`). -/
structure ConditionCommandData (F D : Type) where
  call : F
  full_name : List String
  signature : String
  short_help : String
  long_help : Option String
  arguments : List D

/-- `ConditionCommand::can_block` from `src/src/lang/command/mod.rs`:
`arguments.iter().any(|arg| arg.value.can_block(arguments, context))`.  The
`can_block` of a value expression is the abstract parameter `vcb`
(`ValueDefinition` is not among the provided sources); `C` is the compile
context type.  The command's own fields are never consulted. -/
def conditionCanBlock {F D V C : Type} (_cmd : ConditionCommandData F D)
    (vcb : V → List (ArgumentDefinition V) → C → Bool)
    (arguments : List (ArgumentDefinition V)) (context : C) : Bool :=
  arguments.any (fun arg => vcb arg.value arguments context)

/-- One observable step of `execute::string` from `src/src/lang/execute.rs`:
a job definition being invoked, an error being routed to
`printer.crush_error`, or a join-handle tree being joined. -/
inductive ExecEvent (J E H : Type) where
  | invoked (j : J)
  | crush_error (e : E)
  | joined (h : H)
deriving DecidableEq

/-- `execute::string` from `src/src/lang/execute.rs`, with the parser and the
job invocation kept abstract: a parse error is routed to `crush_error`;
otherwise every job definition in the sequence is invoked in order, a
successful invocation's handle is joined, and a failing invocation's error is
routed to `crush_error` without stopping the loop. -/
def stringExec {J E H : Type} (parseResult : Except E (List J))
    (invoke : J → Except E H) : List (ExecEvent J E H) :=
  match parseResult with
  | .error e => [.crush_error e]
  | .ok jobs =>
    jobs.flatMap (fun j =>
      ExecEvent.invoked j ::
        (match invoke j with
         | .ok handle => [ExecEvent.joined handle]
         | .error e => [ExecEvent.crush_error e]))

/-- C2: evaluating the hand-written scalar type equality of `src/src/result.rs`
at the failing input: comparing `Time` with itself yields `false`, although the
type derives `Eq` (whose contract requires reflexivity) and the spec makes
scalar type equality nominal — the `(Time, Time)` arm is missing from the
`match`. -/
theorem cellDataTypeEq_time_time : cellDataTypeEq CellDataType.Time CellDataType.Time = false :=
  rfl

/-- C10: `declare` and `set` with an empty name path return the error
"Empty variable name" and leave the store untouched, and `remove` with an
empty path returns `none` and leaves the store untouched. -/
theorem empty_path_is_error (fuel : Nat) (st : Store) (id : ScopeId) (v : Value) :
    declare fuel st id [] v = (.error ("Empty variable name"), st) ∧
    set fuel st id [] v = (.error ("Empty variable name"), st) ∧
    remove fuel st id [] = (none, st) :=
  ⟨rfl, rfl, rfl⟩

/-- C5: in a fresh, writable, empty scope, `declare` of a single-segment name
succeeds, `get` then returns the declared value, `remove` returns the removed
value, and a subsequent `get` returns `none`. -/
theorem declare_get_remove_roundtrip (fuel : Nat) (n : String) (v : Value) :
    (declare (fuel + 1) freshStore 0 [n] v).1 = .ok () ∧
    get (fuel + 1) (declare (fuel + 1) freshStore 0 [n] v).2 0 n = some v ∧
    (remove (fuel + 1) (declare (fuel + 1) freshStore 0 [n] v).2 0 [n]).1 = some v ∧
    get (fuel + 1) (remove (fuel + 1) (declare (fuel + 1) freshStore 0 [n] v).2 0 [n]).2 0 n
      = none := by
  simp [declare, get, remove, remove_here, freshStore, ScopeData.new, alookup, ainsert,
    aerase, Store.update]

/-- A store refuting the original C1: scope 0 has parent 1 and imports scope 2,
which binds "x"; neither 0 nor 1 binds "x" locally. -/
def cexUsesStore : Store := fun i =>
  if i = 0 then
    { parent_scope := some 1, calling_scope := none, uses := [2], mapping := [],
      is_loop := false, is_stopped := false, is_readonly := false }
  else if i = 2 then
    { parent_scope := none, calling_scope := none, uses := [],
      mapping := [("x", Value.integer 7)],
      is_loop := false, is_stopped := false, is_readonly := false }
  else ScopeData.new none none false

/-- C1 counterexample: scope 0 does not bind "x" locally, its whole parent
chain (scope 1) does not bind "x", and scope 0's own imported scope 2 does bind
"x" — yet `get` on scope 0 returns `none`: a scope that has a parent never
consults its own imports. -/
theorem get_uses_not_searched_with_parent :
    (cexUsesStore 0).parent_scope = some 1 ∧
    (cexUsesStore 0).uses = [2] ∧
    alookup (cexUsesStore 0).mapping "x" = none ∧
    (cexUsesStore 1).parent_scope = none ∧
    alookup (cexUsesStore 1).mapping "x" = none ∧
    get 5 cexUsesStore 2 "x" = some (Value.integer 7) ∧
    get 5 cexUsesStore 0 "x" = none := by
  decide

/-- C1 amended: `get` returns the local binding when there is one; otherwise,
when the scope has a parent, it returns exactly the parent's `get` result (the
scope's own imports are not consulted); only a scope with no parent searches
its imported scopes in order, returning the first match. -/
theorem get_search_order (fuel : Nat) (st : Store) (id : ScopeId) (name : String) :
    (∀ v, alookup (st id).mapping name = some v → get (fuel + 1) st id name = some v) ∧
    (alookup (st id).mapping name = none → ∀ p, (st id).parent_scope = some p →
      get (fuel + 1) st id name = get fuel st p name) ∧
    (alookup (st id).mapping name = none → (st id).parent_scope = none →
      get (fuel + 1) st id name = (st id).uses.findSome? (fun u => get fuel st u name)) := by
  refine ⟨?_, ?_, ?_⟩
  · intro v h
    simp [get, h]
  · intro h p hp
    simp [get, h, hp]
  · intro h hp
    simp [get, h, hp]

/-- A two-scope store for exercising the parent-delegation clause of
`get_search_order`. -/
def wGetStore : Store := fun i =>
  if i = 0 then
    { parent_scope := some 1, calling_scope := none, uses := [], mapping := [],
      is_loop := false, is_stopped := false, is_readonly := false }
  else if i = 1 then
    { parent_scope := none, calling_scope := none, uses := [],
      mapping := [("y", Value.text "a")],
      is_loop := false, is_stopped := false, is_readonly := false }
  else ScopeData.new none none false

/-- C1 amended, witnessed: on a concrete store, a scope that misses locally and
has a parent delegates the lookup to the parent. -/
theorem get_search_order_witness :
    get 2 wGetStore 0 "y" = get 1 wGetStore 1 "y" ∧
    get 1 wGetStore 1 "y" = some (Value.text "a") :=
  ⟨(get_search_order 1 wGetStore 0 "y").2.1 (by decide) 1 (by decide), by decide⟩

/-- C7: `ConditionCommand::can_block` is the disjunction of the supplied
argument expressions' own `can_block`, and is independent of the command's
callable and every other field of the command. -/
theorem condition_can_block_disjunction {F D V C : Type} (cmd : ConditionCommandData F D)
    (vcb : V → List (ArgumentDefinition V) → C → Bool)
    (arguments : List (ArgumentDefinition V)) (context : C) :
    (conditionCanBlock cmd vcb arguments context = true ↔
      ∃ arg ∈ arguments, vcb arg.value arguments context = true) ∧
    (∀ (cmd2 : ConditionCommandData F D),
      conditionCanBlock cmd vcb arguments context
        = conditionCanBlock cmd2 vcb arguments context) := by
  constructor
  · simp [conditionCanBlock, List.any_eq_true]
  · intro _
    rfl

/-- The loop scope reached by the walk of the calling chain is indeed a loop
scope. -/
lemma specLoopTarget_is_loop (fuel : Nat) : ∀ (st : Store) (id t : ScopeId),
    specLoopTarget fuel st id = some t → (st t).is_loop = true := by
  induction fuel with
  | zero =>
    intro st id t h
    simp [specLoopTarget] at h
  | succ f ih =>
    intro st id t h
    cases hro : (st id).is_readonly with
    | true => simp [specLoopTarget, hro] at h
    | false =>
      cases hlo : (st id).is_loop with
      | true =>
        simp [specLoopTarget, hro, hlo] at h
        rw [← h]
        exact hlo
      | false =>
        cases hc : (st id).calling_scope with
        | none => simp [specLoopTarget, hro, hlo, hc] at h
        | some c =>
          simp [specLoopTarget, hro, hlo, hc] at h
          exact ih st c t h

/-- When the walk of the calling chain reaches a loop scope, it reports
success. -/
lemma specLoopTarget_some_findLoop (fuel : Nat) : ∀ (st : Store) (id t : ScopeId),
    specLoopTarget fuel st id = some t → specFindLoop fuel st id = true := by
  induction fuel with
  | zero =>
    intro st id t h
    simp [specLoopTarget] at h
  | succ f ih =>
    intro st id t h
    cases hro : (st id).is_readonly with
    | true => simp [specLoopTarget, hro] at h
    | false =>
      cases hlo : (st id).is_loop with
      | true => simp [specFindLoop, hro, hlo]
      | false =>
        cases hc : (st id).calling_scope with
        | none => simp [specLoopTarget, hro, hlo, hc] at h
        | some c =>
          simp [specLoopTarget, hro, hlo, hc] at h
          simp [specFindLoop, hro, hlo, hc]
          exact ih st c t h

/-- A one-loop store on which `do_continue` succeeds without marking the loop
scope. -/
def cexLoopStore : Store := fun _ =>
  { parent_scope := none, calling_scope := none, uses := [], mapping := [],
    is_loop := true, is_stopped := false, is_readonly := false }

/-- C3 counterexample: on a writable loop scope, `do_continue` returns `true`
but leaves the loop scope's `is_stopped` flag `false` — only `do_break` marks
the loop scope that honors the request. -/
theorem do_continue_loop_unmarked :
    (cexLoopStore 0).is_loop = true ∧
    (cexLoopStore 0).is_readonly = false ∧
    (do_continue 5 cexLoopStore 0).1 = true ∧
    ((do_continue 5 cexLoopStore 0).2 0).is_stopped = false := by
  decide

/-- C3 amended: `do_break` and `do_continue` walk the calling chain and both
return `true` exactly when the walk reaches a scope with `is_loop = true`
(returning `false` when a scope examined on the way is read-only, or when no
scope on the chain is a loop scope); `do_break` marks the reached loop scope's
`is_stopped` flag, while `do_continue` leaves the loop scope's flag unchanged
(the non-loop scopes walked through are the ones it marks). -/
theorem break_continue_loop_spec (fuel : Nat) : ∀ (st : Store) (id : ScopeId),
    (do_break fuel st id).1 = specFindLoop fuel st id ∧
    (do_continue fuel st id).1 = specFindLoop fuel st id ∧
    (∀ t, specLoopTarget fuel st id = some t →
      ((do_break fuel st id).2 t).is_stopped = true ∧
      ((do_continue fuel st id).2 t).is_stopped = (st t).is_stopped) := by
  induction fuel with
  | zero =>
    intro st id
    refine ⟨rfl, rfl, ?_⟩
    intro t h
    simp [specLoopTarget] at h
  | succ f ih =>
    intro st id
    cases hro : (st id).is_readonly with
    | true =>
      refine ⟨?_, ?_, ?_⟩
      · simp [do_break, specFindLoop, hro]
      · simp [do_continue, specFindLoop, hro]
      · intro t h
        simp [specLoopTarget, hro] at h
    | false =>
      cases hlo : (st id).is_loop with
      | true =>
        refine ⟨?_, ?_, ?_⟩
        · simp [do_break, specFindLoop, hro, hlo]
        · simp [do_continue, specFindLoop, hro, hlo]
        · intro t h
          have ht : t = id := by
            simp [specLoopTarget, hro, hlo] at h
            exact h.symm
          subst ht
          constructor
          · simp [do_break, hro, hlo, Store.update]
          · simp [do_continue, hro, hlo]
      | false =>
        cases hc : (st id).calling_scope with
        | none =>
          refine ⟨?_, ?_, ?_⟩
          · simp [do_break, specFindLoop, hro, hlo, hc]
          · simp [do_continue, specFindLoop, hro, hlo, hc]
          · intro t h
            simp [specLoopTarget, hro, hlo, hc] at h
        | some c =>
          obtain ⟨ihb, ihc, ihm⟩ := ih st c
          cases hr : do_break f st c with
          | mk ok st2 =>
            cases hr2 : do_continue f st c with
            | mk ok2 st3 =>
              have hok : ok = specFindLoop f st c := by rw [hr] at ihb; exact ihb
              have hok2 : ok2 = specFindLoop f st c := by rw [hr2] at ihc; exact ihc
              refine ⟨?_, ?_, ?_⟩
              · cases ok <;> simp [do_break, specFindLoop, hro, hlo, hc, hr, ← hok]
              · cases ok2 <;> simp [do_continue, specFindLoop, hro, hlo, hc, hr2, ← hok2]
              · intro t h
                have hlt : specLoopTarget (f + 1) st id = specLoopTarget f st c := by
                  simp [specLoopTarget, hro, hlo, hc]
                rw [hlt] at h
                have htloop := specLoopTarget_is_loop f st c t h
                have hfind := specLoopTarget_some_findLoop f st c t h
                have hne : t ≠ id := by
                  intro he
                  rw [he, hlo] at htloop
                  cases htloop
                obtain ⟨hmb, hmc⟩ := ihm t h
                rw [hr] at hmb
                rw [hr2] at hmc
                have hokt : ok = true := by rw [hok, hfind]
                have hok2t : ok2 = true := by rw [hok2, hfind]
                subst hokt
                subst hok2t
                constructor
                · simp [do_break, hro, hlo, hc, hr, Store.update, hne]
                  exact hmb
                · simp [do_continue, hro, hlo, hc, hr2, Store.update, hne]
                  exact hmc

/-- A calling chain of one non-loop scope over one loop scope. -/
def wCallStore : Store := fun i =>
  if i = 0 then
    { parent_scope := none, calling_scope := none, uses := [], mapping := [],
      is_loop := true, is_stopped := false, is_readonly := false }
  else if i = 1 then
    { parent_scope := none, calling_scope := some 0, uses := [], mapping := [],
      is_loop := false, is_stopped := false, is_readonly := false }
  else ScopeData.new none none false

/-- C3 amended, witnessed: on a concrete calling chain reaching loop scope 0,
`do_break` marks the loop scope and `do_continue` leaves its flag as it was. -/
theorem break_continue_loop_spec_witness :
    ((do_break 5 wCallStore 1).2 0).is_stopped = true ∧
    ((do_continue 5 wCallStore 1).2 0).is_stopped = (wCallStore 0).is_stopped :=
  (break_continue_loop_spec 5 wCallStore 1).2.2 0 (by decide)

/-- On success, `do_break` and `do_continue` mark `is_stopped` on every
examined scope that is not a loop scope. -/
lemma do_stop_marks_nonloop (fuel : Nat) : ∀ (st : Store) (id : ScopeId),
    ((do_break fuel st id).1 = true → ∀ j ∈ visited fuel st id, (st j).is_loop = false →
      ((do_break fuel st id).2 j).is_stopped = true) ∧
    ((do_continue fuel st id).1 = true → ∀ j ∈ visited fuel st id, (st j).is_loop = false →
      ((do_continue fuel st id).2 j).is_stopped = true) := by
  induction fuel with
  | zero =>
    intro st id
    constructor
    · intro h
      simp [do_break] at h
    · intro h
      simp [do_continue] at h
  | succ f ih =>
    intro st id
    cases hro : (st id).is_readonly with
    | true =>
      constructor
      · intro h
        simp [do_break, hro] at h
      · intro h
        simp [do_continue, hro] at h
    | false =>
      cases hlo : (st id).is_loop with
      | true =>
        constructor <;>
        · intro h j hj hjl
          simp [visited, hro, hlo] at hj
          rw [hj] at hjl
          rw [hjl] at hlo
          cases hlo
      | false =>
        cases hc : (st id).calling_scope with
        | none =>
          constructor
          · intro h
            simp [do_break, hro, hlo, hc] at h
          · intro h
            simp [do_continue, hro, hlo, hc] at h
        | some c =>
          obtain ⟨ihb, ihc⟩ := ih st c
          constructor
          · intro h j hj hjl
            cases hr : do_break f st c with
            | mk ok st2 =>
              cases ok with
              | false => simp [do_break, hro, hlo, hc, hr] at h
              | true =>
                simp [do_break, hro, hlo, hc, hr]
                by_cases hji : j = id
                · subst hji
                  simp [Store.update]
                · simp [Store.update, hji]
                  have hj' : j ∈ visited f st c := by
                    simp [visited, hro, hlo, hc] at hj
                    rcases hj with hj | hj
                    · exact absurd hj hji
                    · exact hj
                  have := ihb (by rw [hr]) j hj' hjl
                  rw [hr] at this
                  exact this
          · intro h j hj hjl
            cases hr : do_continue f st c with
            | mk ok st2 =>
              cases ok with
              | false => simp [do_continue, hro, hlo, hc, hr] at h
              | true =>
                simp [do_continue, hro, hlo, hc, hr]
                by_cases hji : j = id
                · subst hji
                  simp [Store.update]
                · simp [Store.update, hji]
                  have hj' : j ∈ visited f st c := by
                    simp [visited, hro, hlo, hc] at hj
                    rcases hj with hj | hj
                    · exact absurd hj hji
                    · exact hj
                  have := ihc (by rw [hr]) j hj' hjl
                  rw [hr] at this
                  exact this

/-- C9: whenever `do_break` or `do_continue` succeeds when called on a
non-loop scope, the resulting store has `is_stopped = true` on the starting
scope and on every non-loop scope the walk of the calling chain examined — not
only on the loop scope that honors the request. -/
theorem stop_propagation_marks (fuel : Nat) (st : Store) (id : ScopeId)
    (hstart : (st id).is_loop = false) :
    ((do_break fuel st id).1 = true → ∀ j ∈ visited fuel st id, (st j).is_loop = false →
      ((do_break fuel st id).2 j).is_stopped = true) ∧
    ((do_continue fuel st id).1 = true → ∀ j ∈ visited fuel st id, (st j).is_loop = false →
      ((do_continue fuel st id).2 j).is_stopped = true) :=
  do_stop_marks_nonloop fuel st id

/-- A calling chain 2 → 1 → 0 whose last scope is the loop. -/
def wCallStore2 : Store := fun i =>
  if i = 0 then
    { parent_scope := none, calling_scope := none, uses := [], mapping := [],
      is_loop := true, is_stopped := false, is_readonly := false }
  else if i = 1 then
    { parent_scope := none, calling_scope := some 0, uses := [], mapping := [],
      is_loop := false, is_stopped := false, is_readonly := false }
  else if i = 2 then
    { parent_scope := none, calling_scope := some 1, uses := [], mapping := [],
      is_loop := false, is_stopped := false, is_readonly := false }
  else ScopeData.new none none false

/-- C9, witnessed: breaking from the bottom of a concrete two-deep calling
chain marks both the starting scope and the intervening non-loop scope. -/
theorem stop_propagation_marks_witness :
    ((do_break 5 wCallStore2 2).2 2).is_stopped = true ∧
    ((do_break 5 wCallStore2 2).2 1).is_stopped = true :=
  ⟨(stop_propagation_marks 5 wCallStore2 2 (by decide)).1 (by decide) 2 (by decide) (by decide),
   (stop_propagation_marks 5 wCallStore2 2 (by decide)).1 (by decide) 1 (by decide) (by decide)⟩

/-- C4: `set` on a single-segment name is `set_on_data`, which updates the
nearest binding on the parent chain: when no scope on the chain binds the name
it fails with the "Unknown variable" error; when the owning scope is read-only
it fails with "Scope is read only"; when the new value's type differs from the
bound value's type it fails with the message suggesting removal of the old
variable first; in every failure the store is returned unchanged; and on a
type match it re-binds the name in the owning scope. -/
theorem set_on_data_spec (fuel : Nat) : ∀ (st : Store) (id : ScopeId) (nm : String)
    (v : Value) (l : List ScopeId), chainList fuel st id = some l →
    set fuel st id [nm] v = set_on_data fuel st id nm v ∧
    (owner fuel st id nm = none →
      set_on_data fuel st id nm v = (.error (unknownVariableMessage nm), st)) ∧
    (∀ o, owner fuel st id nm = some o →
      ((st o).is_readonly = true →
        set_on_data fuel st id nm v = (.error ("Scope is read only"), st)) ∧
      ((st o).is_readonly = false → ∀ old, alookup (st o).mapping nm = some old →
        (old.value_type ≠ v.value_type →
          set_on_data fuel st id nm v = (.error (typeMismatchMessage nm), st)) ∧
        (old.value_type = v.value_type →
          set_on_data fuel st id nm v =
            (.ok (), st.update o { st o with mapping := ainsert (st o).mapping nm v })))) := by
  induction fuel with
  | zero =>
    intro st id nm v l hch
    simp [chainList] at hch
  | succ f ih =>
    intro st id nm v l hch
    cases hm : alookup (st id).mapping nm with
    | some old =>
      have how : owner (f + 1) st id nm = some id := by simp [owner, hm]
      refine ⟨rfl, ?_, ?_⟩
      · intro h0
        rw [how] at h0
        exact Option.noConfusion h0
      · intro o ho
        rw [how] at ho
        have hoe := Option.some.inj ho
        subst hoe
        constructor
        · intro hro
          simp [set_on_data, hm, hro]
        · intro hro old2 hold2
          rw [hm] at hold2
          have hoe2 := (Option.some.inj hold2).symm
          subst hoe2
          constructor
          · intro hty
            simp [set_on_data, hm, hro, hty]
          · intro hty
            simp [set_on_data, hm, hro, hty]
    | none =>
      cases hp : (st id).parent_scope with
      | none =>
        have how : owner (f + 1) st id nm = none := by simp [owner, hm, hp]
        refine ⟨rfl, ?_, ?_⟩
        · intro _
          simp [set_on_data, hm, hp]
        · intro o ho
          rw [how] at ho
          exact Option.noConfusion ho
      | some p =>
        have hch2 := hch
        simp only [chainList, hp] at hch2
        obtain ⟨l', hl'⟩ : ∃ l', chainList f st p = some l' := by
          cases hq : chainList f st p with
          | none => rw [hq] at hch2; simp at hch2
          | some l' => exact ⟨l', rfl⟩
        have IH := ih st p nm v l' hl'
        have e1 : owner (f + 1) st id nm = owner f st p nm := by simp [owner, hm, hp]
        have e2 : set_on_data (f + 1) st id nm v = set_on_data f st p nm v := by
          simp [set_on_data, hm, hp]
        refine ⟨rfl, ?_, ?_⟩
        · intro h0
          rw [e1] at h0
          rw [e2]
          exact IH.2.1 h0
        · intro o ho
          rw [e1] at ho
          obtain ⟨ha, hb⟩ := IH.2.2 o ho
          constructor
          · intro hro
            rw [e2]
            exact ha hro
          · intro hro old hold
            obtain ⟨hx, hy⟩ := hb hro old hold
            constructor
            · intro hty
              rw [e2]
              exact hx hty
            · intro hty
              rw [e2]
              exact hy hty

/-- A single writable scope binding "x" to the integer 1. -/
def wSetStore : Store := fun i =>
  if i = 0 then
    { parent_scope := none, calling_scope := none, uses := [],
      mapping := [("x", Value.integer 1)],
      is_loop := false, is_stopped := false, is_readonly := false }
  else ScopeData.new none none false

/-- C4, witnessed: re-binding "x" from integer 1 to integer 2 in a concrete
scope succeeds and updates the owning scope's mapping. -/
theorem set_on_data_spec_witness :
    set_on_data 1 wSetStore 0 "x" (Value.integer 2) =
      (.ok (), wSetStore.update 0
        { wSetStore 0 with mapping := ainsert (wSetStore 0).mapping "x" (Value.integer 2) }) :=
  ((((set_on_data_spec 1 wSetStore 0 "x" (Value.integer 2) [0] (by decide)).2.2) 0
      (by decide)).2 (by decide) (Value.integer 1) (by decide)).2 (by decide)

/-- The length of a `filterMap` is the number of elements on which the function
fires. -/
lemma length_filterMap_eq_length_filter {α β : Type} (f : α → Option β) :
    ∀ l : List α, (l.filterMap f).length = (l.filter (fun a => (f a).isSome)).length := by
  intro l
  induction l with
  | nil => rfl
  | cons a t ih =>
    cases h : f a <;> simp [List.filterMap_cons, List.filter_cons, h, ih]

/-- C6: joining a join-handle tree emits, via the printer, exactly the reports
of its failing workers in join order — `job_error` for a worker error, the
generic message for a panic, nothing for a success — and a `Many` node joins
every child, so the root's event list is `reportOf` filter-mapped over all the
workers in the tree, with exactly one event per failing worker. -/
theorem join_reports_per_failure (h : JobJoinHandle) :
    join h = (leaves h).filterMap reportOf ∧
    (join h).length = ((leaves h).filter (fun r => (reportOf r).isSome)).length := by
  have main : ∀ hh : JobJoinHandle, join hh = (leaves hh).filterMap reportOf := by
    intro hh
    refine @JobJoinHandle.rec (fun x => join x = (leaves x).filterMap reportOf)
      (fun v => joinList v = (leavesList v).filterMap reportOf) ?_ ?_ ?_ ?_ hh
    · intro r
      cases r <;> simp [join, leaves, reportOf]
    · intro v ihv
      simp [join, leaves, ihv]
    · simp [joinList, leavesList]
    · intro hd tl ih1 ih2
      simp [joinList, leavesList, ih1, ih2]
  refine ⟨main h, ?_⟩
  rw [main h]
  exact length_filterMap_eq_length_filter reportOf (leaves h)

/-- Membership in a `flatMap` from membership in one of the pieces. -/
lemma mem_flatMap_of_mem {α β : Type} (f : α → List β) {a : α} {l : List α}
    (ha : a ∈ l) {b : β} (hb : b ∈ f a) : b ∈ l.flatMap f := by
  induction l with
  | nil => cases ha
  | cons x t ih =>
    rcases List.mem_cons.mp ha with hax | hat
    · subst hax
      exact List.mem_append.mpr (Or.inl hb)
    · exact List.mem_append.mpr (Or.inr (ih hat))

/-- C8: when a parsed sequence of job definitions is executed, a failure while
invoking the job at position i is routed to `crush_error`, and every job at a
later position is still invoked. -/
theorem jobs_run_after_failure {J E H : Type} (jobs : List J) (invoke : J → Except E H)
    (i k : Nat) (hik : i < k) (hi : i < jobs.length) (hk : k < jobs.length) (e : E)
    (he : invoke (jobs.get ⟨i, hi⟩) = .error e) :
    ExecEvent.crush_error e ∈ stringExec (Except.ok jobs) invoke ∧
    ExecEvent.invoked (jobs.get ⟨k, hk⟩) ∈ stringExec (Except.ok jobs) invoke := by
  constructor
  · refine mem_flatMap_of_mem _ (List.get_mem jobs i hi) ?_
    rw [he]
    simp
  · refine mem_flatMap_of_mem _ (List.get_mem jobs k hk) ?_
    simp

/-- The invocation function of the C8 witness: the first job fails, the second
succeeds. -/
def winvoke : Nat → Except String Unit := fun j =>
  if j = 0 then .error ("boom") else .ok ()

/-- C8, witnessed: with two concrete jobs of which the first fails, the error
is routed to `crush_error` and the second job is still invoked. -/
theorem jobs_run_after_failure_witness :
    ExecEvent.crush_error "boom" ∈ stringExec (Except.ok [0, 1]) winvoke ∧
    ExecEvent.invoked 1 ∈ stringExec (Except.ok [0, 1]) winvoke :=
  jobs_run_after_failure [0, 1] winvoke 0 1 (by decide) (by decide) (by decide) "boom" rfl

end Crush
